import Mathlib

/-!
# faker: a shallow embedding of `cmd/faker/main.go`

The program publishes fabricated events forever.  The embedding below follows
`main.go` declaration by declaration:

* `eventNames`, `letterRunes`, `FakeEvent` are the package-level declarations;
* `randString` is the identifier generator;
* `clockStep` is the goroutine started by `init`, one statement per step;
* `startWorkerIteration` is one pass through the body of the `for` loop of
  `startWorker`, up to the call of `topic.Publish`;
* `sysStep` interleaves clock ticks and worker iterations.

Three library packages are used by the program and are modelled here by their
documented behaviour: `math/rand` (`Intn`), `time` (`Add`, `Unix`) and
`encoding/json` (`Marshal`, and `Unmarshal` as the reference decoder of the
wire format).
-/

namespace Faker

/-! ## Run-time panics -/

/-- The ways in which the modelled code can panic. -/
inductive Panic where
  | intnNonPositive : Panic
  | indexOutOfRange : Panic
  | marshalError (msg : String) : Panic
  deriving DecidableEq, Repr

/-! ## `math/rand` -/

/-- The state of the global random source: the stream of raw outcomes that the
next calls are going to observe, first call first. -/
abbrev Rng := Nat → Nat

/-- `rand.Intn(n)`: panics when `n <= 0` (here `n = 0`, lengths are never
negative), otherwise consumes one outcome of the source and returns a value in
`[0, n)`.  Every value of `[0, n)` is the result for some outcome. -/
def Intn (n : Nat) (r : Rng) : Except Panic (Nat × Rng) :=
  if n = 0 then .error .intnNonPositive
  else .ok (r 0 % n, fun i => r (i + 1))

/-- Indexing `xs[i]` of a Go array or slice: panics when `i` is out of range. -/
def index {α : Type} (xs : List α) (i : Nat) : Except Panic α :=
  match xs[i]? with
  | some x => .ok x
  | none => .error .indexOutOfRange

/-! ## Package-level declarations -/

/-- The catalog `eventNames` of `main.go`, slot by slot. -/
def eventNames : List String :=
  [ "play_song",
    "pause_song",
    "stop_song",
    "play_song",
    "pause_song",
    "stop_song",
    "play_song",
    "like_song",
    "like_song",
    "like_song",
    "update_prefs",
    "login",
    "dance" ]

/-- The alphabet `letterRunes` of `main.go`. -/
def letterRunes : List Char :=
  "abcdefghijklmnopqrstuvwxyzABCDEFGHIJKLMNOPQRSTUVWXYZ".data

/-- The values an `interface{}` inside `Metadata` can hold, as far as
`encoding/json` distinguishes them: `nil`, booleans, integers, strings, slices,
string-keyed maps, and a channel as the representative of the types that
`json.Marshal` refuses. -/
inductive GoValue where
  | nil : GoValue
  | bool (b : Bool) : GoValue
  | int (n : Int) : GoValue
  | str (s : String) : GoValue
  | slice (xs : List GoValue) : GoValue
  | map (ms : List (String × GoValue)) : GoValue
  | chan : GoValue

/-- The struct `FakeEvent`.  `Metadata` is `none` for the nil map (the zero
value of `map[string]interface{}`) and `some ms` for an allocated map with the
entries `ms`. -/
structure FakeEvent where
  Name : String
  UUID : String
  UserUUID : String
  Timestamp : Int
  Metadata : Option (List (String × GoValue))

/-! ## `time` -/

/-- A `time.Time`, as the number of nanoseconds since the Unix epoch. -/
structure Time where
  nanos : Int
  deriving DecidableEq, Repr

/-- A `time.Duration` is a number of nanoseconds. -/
abbrev Duration := Int

/-- The constant `time.Second`. -/
def Second : Duration := 1000000000

/-- The constant `time.Hour`. -/
def Hour : Duration := 3600 * Second

/-- The method `t.Add(d)`. -/
def Time.Add (t : Time) (d : Duration) : Time := ⟨t.nanos + d⟩

/-- The method `t.Unix()`: whole seconds since the epoch, rounded down. -/
def Time.Unix (t : Time) : Int := t.nanos / 1000000000

/-- Wrap-around of `int64` arithmetic. -/
def wrapInt64 (x : Int) : Int := (x + 2 ^ 63) % 2 ^ 64 - 2 ^ 63

/-! ## The identifier generator -/

/-- The loop `for i := range b { b[i] = letterRunes[rand.Intn(len(letterRunes))] }`
of `randString`, with `k` iterations left and `i` the current index. -/
def randStringFill : Nat → Nat → List Char → Rng → Except Panic (List Char × Rng)
  | 0, _, b, r => .ok (b, r)
  | k + 1, i, b, r =>
    match Intn letterRunes.length r with
    | .error e => .error e
    | .ok (j, r1) =>
      match index letterRunes j with
      | .error e => .error e
      | .ok c => randStringFill k (i + 1) (b.set i c) r1

/-- The function `randString(n)`: `b := make([]rune, n)`, the fill loop, and
`string(b)`. -/
def randString (n : Nat) (r : Rng) : Except Panic (String × Rng) :=
  let b := List.replicate n (Char.ofNat 0)
  match randStringFill b.length 0 b r with
  | .error e => .error e
  | .ok (b1, r1) => .ok (String.mk b1, r1)

/-! ## `encoding/json`: the encoder -/

/-- The table `hex` of `encoding/json`. -/
def hexDigit (n : Nat) : Char := "0123456789abcdef".data.getD n '0'

/-- The table `htmlSafeSet` of `encoding/json`: the ASCII characters that
`Marshal` copies unchanged into a string literal. -/
def htmlSafe (c : Char) : Bool :=
  decide (32 ≤ c.toNat) && decide (c.toNat < 128) && !(c == '"') && !(c == '\\')
    && !(c == '<') && !(c == '>') && !(c == '&')

/-- What `Marshal` writes for one character of a string: itself when it is
safe, a two-character escape for the quote, the backslash, line feed, carriage
return and tab, and a `\u` escape for the other control characters, for
`<`, `>`, `&` and for U+2028 and U+2029. -/
def escapeRune (c : Char) : List Char :=
  if c.toNat < 128 then
    if htmlSafe c then [c]
    else if c = '\\' ∨ c = '"' then ['\\', c]
    else if c = '\n' then ['\\', 'n']
    else if c = '\r' then ['\\', 'r']
    else if c = '\t' then ['\\', 't']
    else ['\\', 'u', '0', '0', hexDigit (c.toNat / 16), hexDigit (c.toNat % 16)]
  else if c.toNat = 8232 ∨ c.toNat = 8233 then
    ['\\', 'u', '2', '0', '2', hexDigit (c.toNat % 16)]
  else [c]

/-- A Go string as a JSON string literal. -/
def encodeString (s : String) : List Char :=
  '"' :: (s.data.flatMap escapeRune ++ ['"'])

/-- The decimal digit `d` as a character. -/
def digitChar (d : Nat) : Char := Char.ofNat (48 + d)

/-- The digit loop of `strconv.FormatInt` in base 10: the digits of `u` are
put in front of `acc`, the last one first. -/
def formatBits : Nat → Nat → List Char → List Char
  | 0, _, acc => acc
  | fuel + 1, u, acc =>
    if u < 10 then digitChar u :: acc
    else formatBits fuel (u / 10) (digitChar (u % 10) :: acc)

/-- An unsigned number in decimal. -/
def formatNat (u : Nat) : List Char := formatBits (u + 1) u []

/-- An `int64` in decimal, as `strconv.FormatInt(v, 10)` writes it. -/
def formatInt (v : Int) : List Char :=
  if v < 0 then '-' :: formatNat v.natAbs else formatNat v.natAbs

/-- Puts an encoded map entry in its place among entries sorted by key. -/
def insertEntry (e : String × List Char) : List (String × List Char) → List (String × List Char)
  | [] => [e]
  | x :: xs => if e.1 < x.1 then e :: x :: xs else x :: insertEntry e xs

/-- The entries of a map in the order of their keys: `Marshal` sorts them. -/
def sortEntries : List (String × List Char) → List (String × List Char)
  | [] => []
  | e :: es => insertEntry e (sortEntries es)

/-- Joins encoded items with commas. -/
def joinComma : List (List Char) → List Char
  | [] => []
  | [x] => x
  | x :: y :: rest => x ++ ',' :: joinComma (y :: rest)

/-- The text of one entry of an object: the key as a string literal, a colon,
the encoded value. -/
def entryText (e : String × List Char) : List Char :=
  encodeString e.1 ++ ':' :: e.2

/-- An encoded map: its entries sorted by key, between braces. -/
def objectText (es : List (String × List Char)) : List Char :=
  '\x7b' :: (joinComma ((sortEntries es).map entryText) ++ ['\x7d'])

mutual
/-- The encoding of an `interface{}` value by `Marshal`; a channel is an
unsupported type and gives an error. -/
def encodeValue : GoValue → Except String (List Char)
  | .nil => .ok "null".data
  | .bool b => .ok (if b then "true".data else "false".data)
  | .int n => .ok (formatInt n)
  | .str s => .ok (encodeString s)
  | .slice xs =>
    match encodeElements xs with
    | .error e => .error e
    | .ok items => .ok ('[' :: (joinComma items ++ [']']))
  | .map ms =>
    match encodeEntries ms with
    | .error e => .error e
    | .ok es => .ok (objectText es)
  | .chan => .error "json: unsupported type: chan"
/-- The encodings of the elements of a slice. -/
def encodeElements : List GoValue → Except String (List (List Char))
  | [] => .ok []
  | x :: xs =>
    match encodeValue x with
    | .error e => .error e
    | .ok a =>
      match encodeElements xs with
      | .error e => .error e
      | .ok rest => .ok (a :: rest)
/-- The encodings of the values of the entries of a map. -/
def encodeEntries : List (String × GoValue) → Except String (List (String × List Char))
  | [] => .ok []
  | (k, x) :: xs =>
    match encodeValue x with
    | .error e => .error e
    | .ok a =>
      match encodeEntries xs with
      | .error e => .error e
      | .ok rest => .ok ((k, a) :: rest)
end

/-- The encoding of the field `Metadata`: `null` for the nil map, an object
otherwise. -/
def encodeMetadata : Option (List (String × GoValue)) → Except String (List Char)
  | none => .ok "null".data
  | some ms =>
    match encodeEntries ms with
    | .error e => .error e
    | .ok es => .ok (objectText es)

/-- The call `json.Marshal(ev)` for `ev : *FakeEvent`: the exported fields in
the order of their declaration, each under its own name (the struct has no
tags). -/
def Marshal (ev : FakeEvent) : Except String String :=
  match encodeMetadata ev.Metadata with
  | .error e => .error e
  | .ok md =>
    .ok (String.mk
      ("\x7b\"Name\":".data ++ encodeString ev.Name
        ++ ",\"UUID\":".data ++ encodeString ev.UUID
        ++ ",\"UserUUID\":".data ++ encodeString ev.UserUUID
        ++ ",\"Timestamp\":".data ++ formatInt ev.Timestamp
        ++ ",\"Metadata\":".data ++ md ++ "\x7d".data))

/-! ## `encoding/json`: the decoder

The program only encodes.  The decoder below is the reference reading of the
wire format, after `json.Unmarshal` into a `FakeEvent`: it is what a consumer
of the topic runs.  Numbers with a fraction or an exponent are floating point
and are rejected here; keys are matched to fields without regard to the case
of ASCII letters. -/

/-- The white space that JSON allows between tokens. -/
def isSpace (c : Char) : Bool := c == ' ' || c == '\t' || c == '\r' || c == '\n'

/-- Drops leading white space. -/
def skipSpace : List Char → List Char
  | [] => []
  | c :: cs => if isSpace c then skipSpace cs else c :: cs

/-- A decimal digit. -/
def isDigit (c : Char) : Bool := decide (48 ≤ c.toNat) && decide (c.toNat ≤ 57)

/-- The value of a hexadecimal digit. -/
def hexVal (c : Char) : Option Nat :=
  if 48 ≤ c.toNat ∧ c.toNat ≤ 57 then some (c.toNat - 48)
  else if 97 ≤ c.toNat ∧ c.toNat ≤ 102 then some (c.toNat - 87)
  else if 65 ≤ c.toNat ∧ c.toNat ≤ 70 then some (c.toNat - 55)
  else none

/-- The character that a one-letter escape stands for. -/
def unescape (c : Char) : Option Char :=
  if c = '"' then some '"'
  else if c = '\\' then some '\\'
  else if c = '/' then some '/'
  else if c = 'b' then some (Char.ofNat 8)
  else if c = 'f' then some (Char.ofNat 12)
  else if c = 'n' then some '\n'
  else if c = 'r' then some '\r'
  else if c = 't' then some '\t'
  else none

/-- The value of four hexadecimal digits. -/
def hex4 (h1 h2 h3 h4 : Char) : Option Nat :=
  match hexVal h1, hexVal h2, hexVal h3, hexVal h4 with
  | some a, some b, some c, some d => some (((a * 16 + b) * 16 + c) * 16 + d)
  | _, _, _, _ => none

/-- The code unit of a `\uXXXX` escape at the head of the input, if there is
one (the function `getu4` of `encoding/json`). -/
def getu4 (cs : List Char) : Option Nat :=
  match cs with
  | b :: u :: h1 :: h2 :: h3 :: h4 :: _ => if b = '\\' ∧ u = 'u' then hex4 h1 h2 h3 h4 else none
  | _ => none

/-- Whether a code unit is a UTF-16 surrogate. -/
def isSurrogate (x : Nat) : Bool := decide (55296 ≤ x) && decide (x < 57344)

/-- The character of a surrogate pair, if `hi` and `lo` form one. -/
def decodePair (hi : Nat) (lo : Option Nat) : Option Char :=
  match lo with
  | some l =>
    if 55296 ≤ hi ∧ hi < 56320 ∧ 56320 ≤ l ∧ l < 57344 then
      some (Char.ofNat (65536 + (hi - 55296) * 1024 + (l - 56320)))
    else none
  | none => none

/-- Reads the rest of a string literal, the opening quote being consumed:
the characters read so far are `acc`, last one first.  The result is the
string and the input after the closing quote.  A `\u` escape of a surrogate
pair gives the character of the pair, a lone surrogate gives U+FFFD. -/
def scanString : Nat → List Char → List Char → Except String (List Char × List Char)
  | 0, _, _ => .error "unexpected end of JSON input"
  | _ + 1, [], _ => .error "unexpected end of JSON input"
  | fuel + 1, c :: cs, acc =>
    if c = '"' then .ok (acc.reverse, cs)
    else if c = '\\' then
      match cs with
      | [] => .error "unexpected end of JSON input"
      | e :: rest =>
        if e = 'u' then
          match getu4 (c :: cs) with
          | none => .error "invalid character in \\u hexadecimal character escape"
          | some x =>
            if isSurrogate x then
              match decodePair x (getu4 (rest.drop 4)) with
              | some pair => scanString fuel (rest.drop 10) (pair :: acc)
              | none => scanString fuel (rest.drop 4) (Char.ofNat 65533 :: acc)
            else scanString fuel (rest.drop 4) (Char.ofNat x :: acc)
        else
          match unescape e with
          | some x => scanString fuel rest (x :: acc)
          | none => .error "invalid character in string escape code"
    else if c.toNat < 32 then .error "invalid character in string literal"
    else scanString fuel cs (c :: acc)

/-- Reads a run of decimal digits: their value on top of `acc`, and the input
after them. -/
def scanDigits : List Char → Nat → Nat × List Char
  | [], acc => (acc, [])
  | c :: cs, acc =>
    if isDigit c then scanDigits cs (acc * 10 + (c.toNat - 48)) else (acc, c :: cs)

/-- Reads an unsigned integer literal: `0`, or a digit from 1 to 9 followed by
digits; a fraction or an exponent after it is refused. -/
def scanNat (cs : List Char) : Except String (Nat × List Char) :=
  match cs with
  | [] => .error "unexpected end of JSON input"
  | c :: rest =>
    if ¬ isDigit c then .error "invalid character in numeric literal"
    else
      let res := if c = '0' then (0, rest) else scanDigits (c :: rest) 0
      match res.2 with
      | [] => .ok res
      | d :: _ =>
        if isDigit d then .error "invalid character after top-level value"
        else if d = '.' ∨ d = 'e' ∨ d = 'E' then .error "number is not an integer"
        else .ok res

/-- Reads an integer literal with an optional minus sign. -/
def scanInt (cs : List Char) : Except String (Int × List Char) :=
  match cs with
  | [] => .error "unexpected end of JSON input"
  | c :: rest =>
    if c = '-' then
      match scanNat rest with
      | .error e => .error e
      | .ok (n, rest1) => .ok (-(n : Int), rest1)
    else
      match scanNat (c :: rest) with
      | .error e => .error e
      | .ok (n, rest1) => .ok ((n : Int), rest1)

/-- Consumes the letters `word` at the head of the input. -/
def expectWord (word : List Char) (cs : List Char) : Option (List Char) :=
  if word.isPrefixOf cs then some (cs.drop word.length) else none

mutual
/-- Reads one JSON value.  The first argument bounds the number of nested
calls; the length of the input is always enough. -/
def parseValue : Nat → List Char → Except String (GoValue × List Char)
  | 0, _ => .error "out of fuel"
  | fuel + 1, cs =>
    match skipSpace cs with
    | [] => .error "unexpected end of JSON input"
    | c :: rest =>
      if c = '"' then
        match scanString rest.length rest [] with
        | .error e => .error e
        | .ok (s, rest1) => .ok (.str (String.mk s), rest1)
      else if c = '\x7b' then
        match skipSpace rest with
        | '\x7d' :: rest1 => .ok (.map [], rest1)
        | _ => parseMembers fuel rest []
      else if c = '[' then
        match skipSpace rest with
        | ']' :: rest1 => .ok (.slice [], rest1)
        | _ => parseElements fuel rest []
      else if c = 'n' then
        match expectWord "ull".data rest with
        | some rest1 => .ok (.nil, rest1)
        | none => .error "invalid character in literal null"
      else if c = 't' then
        match expectWord "rue".data rest with
        | some rest1 => .ok (.bool true, rest1)
        | none => .error "invalid character in literal true"
      else if c = 'f' then
        match expectWord "alse".data rest with
        | some rest1 => .ok (.bool false, rest1)
        | none => .error "invalid character in literal false"
      else
        match scanInt (c :: rest) with
        | .error e => .error e
        | .ok (n, rest1) => .ok (.int n, rest1)
/-- Reads the members of an object after its opening brace; `acc` holds the
members read so far. -/
def parseMembers : Nat → List Char → List (String × GoValue) → Except String (GoValue × List Char)
  | 0, _, _ => .error "out of fuel"
  | fuel + 1, cs, acc =>
    match skipSpace cs with
    | [] => .error "unexpected end of JSON input"
    | q :: rest =>
      if q ≠ '"' then .error "invalid character looking for beginning of object key string"
      else
        match scanString rest.length rest [] with
        | .error e => .error e
        | .ok (key, rest1) =>
          match skipSpace rest1 with
          | [] => .error "unexpected end of JSON input"
          | colon :: rest2 =>
            if colon ≠ ':' then .error "invalid character after object key"
            else
              match parseValue fuel rest2 with
              | .error e => .error e
              | .ok (v, rest3) =>
                match skipSpace rest3 with
                | [] => .error "unexpected end of JSON input"
                | sep :: rest4 =>
                  if sep = ',' then parseMembers fuel rest4 (acc ++ [(String.mk key, v)])
                  else if sep = '\x7d' then .ok (.map (acc ++ [(String.mk key, v)]), rest4)
                  else .error "invalid character after object key:value pair"
/-- Reads the elements of an array after its opening bracket. -/
def parseElements : Nat → List Char → List GoValue → Except String (GoValue × List Char)
  | 0, _, _ => .error "out of fuel"
  | fuel + 1, cs, acc =>
    match parseValue fuel cs with
    | .error e => .error e
    | .ok (v, rest1) =>
      match skipSpace rest1 with
      | [] => .error "unexpected end of JSON input"
      | sep :: rest2 =>
        if sep = ',' then parseElements fuel rest2 (acc ++ [v])
        else if sep = ']' then .ok (.slice (acc ++ [v]), rest2)
        else .error "invalid character after array element"
end

/-- Reads a whole JSON text: one value, and nothing but white space after it. -/
def parseJSON (data : String) : Except String GoValue :=
  match parseValue (data.length + 1) data.data with
  | .error e => .error e
  | .ok (v, rest) =>
    match skipSpace rest with
    | [] => .ok v
    | _ :: _ => .error "invalid character after top-level value"

/-- An ASCII letter in lower case, any other character unchanged. -/
def lowerASCII (c : Char) : Char :=
  if 65 ≤ c.toNat ∧ c.toNat ≤ 90 then Char.ofNat (c.toNat + 32) else c

/-- Equality of a key and a field name without regard to the case of letters. -/
def foldEq (key field : String) : Bool :=
  key.data.map lowerASCII == field.data.map lowerASCII

/-- The zero value of `FakeEvent`. -/
def zeroEvent : FakeEvent :=
  { Name := "", UUID := "", UserUUID := "", Timestamp := 0, Metadata := none }

/-- Whether an integer is a value of `int64`. -/
def inInt64 (n : Int) : Bool := decide (-(2 ^ 63) ≤ n) && decide (n < 2 ^ 63)

/-- A string member stored into a string field; `null` leaves the field as it is. -/
def stringField (v : GoValue) (old : String) : Except String String :=
  match v with
  | .str s => .ok s
  | .nil => .ok old
  | _ => .error "json: cannot unmarshal into Go struct field of type string"

/-- Stores one member of the object into the field of its name; a member of no
field is skipped. -/
def setField (ev : FakeEvent) (m : String × GoValue) : Except String FakeEvent :=
  if foldEq m.1 "Name" then
    match stringField m.2 ev.Name with
    | .error e => .error e
    | .ok s => .ok { ev with Name := s }
  else if foldEq m.1 "UUID" then
    match stringField m.2 ev.UUID with
    | .error e => .error e
    | .ok s => .ok { ev with UUID := s }
  else if foldEq m.1 "UserUUID" then
    match stringField m.2 ev.UserUUID with
    | .error e => .error e
    | .ok s => .ok { ev with UserUUID := s }
  else if foldEq m.1 "Timestamp" then
    match m.2 with
    | .int n =>
      if inInt64 n then .ok { ev with Timestamp := n }
      else .error "json: cannot unmarshal number into Go struct field of type int64"
    | .nil => .ok ev
    | _ => .error "json: cannot unmarshal into Go struct field of type int64"
  else if foldEq m.1 "Metadata" then
    match m.2 with
    | .map ms =>
      match ev.Metadata with
      | none => .ok { ev with Metadata := some ms }
      | some old => .ok { ev with Metadata := some (old ++ ms) }
    | .nil => .ok { ev with Metadata := none }
    | _ => .error "json: cannot unmarshal into Go struct field of type map[string]interface {}"
  else .ok ev

/-- Stores the members of an object one after the other. -/
def setFields : List (String × GoValue) → FakeEvent → Except String FakeEvent
  | [], ev => .ok ev
  | m :: ms, ev =>
    match setField ev m with
    | .error e => .error e
    | .ok ev1 => setFields ms ev1

/-- The call `json.Unmarshal(data, &ev)` on a zero `ev`. -/
def Unmarshal (data : String) : Except String FakeEvent :=
  match parseJSON data with
  | .error e => .error e
  | .ok (.map ms) => setFields ms zeroEvent
  | .ok .nil => .ok zeroEvent
  | .ok _ => .error "json: cannot unmarshal into Go value of type main.FakeEvent"

/-! ## The worker -/

/-- The literal that the worker publishes instead of an event when the fault
draw says so. -/
def badData : String := "this is bad data I can't parse"

/-- The condition `rand.Intn(100000) <= 1` on the outcome of the fault draw. -/
def isFault (draw : Nat) : Bool := decide (draw ≤ 1)

/-- The expression `eventNames[rand.Intn(len(eventNames)-1)]`. -/
def drawEventName (r : Rng) : Except Panic (String × Rng) :=
  match Intn (eventNames.length - 1) r with
  | .error e => .error e
  | .ok (i, r1) =>
    match index eventNames i with
    | .error e => .error e
    | .ok name => .ok (name, r1)

/-- The composite literal `&FakeEvent{...}` of `startWorker`: the operands are
evaluated from the first field to the last, `Metadata` is not mentioned and
keeps its zero value. -/
def buildEvent (recordTime : Time) (r : Rng) : Except Panic (FakeEvent × Rng) :=
  match drawEventName r with
  | .error e => .error e
  | .ok (name, r1) =>
    match randString 24 r1 with
    | .error e => .error e
    | .ok (uuid, r2) =>
      match randString 24 r2 with
      | .error e => .error e
      | .ok (user, r3) =>
        .ok ({ Name := name, UUID := uuid, UserUUID := user,
               Timestamp := recordTime.Unix, Metadata := none }, r3)

/-- What one iteration of the loop of `startWorker` has in hand when it calls
`topic.Publish`: the bytes `data`, and the event they encode when there is
one. -/
structure Iteration where
  event : Option FakeEvent
  data : String

/-- One iteration of the loop of `startWorker`, up to `topic.Publish`: the
fault draw, then either the literal or the event and its encoding; an error of
`json.Marshal` panics. -/
def startWorkerIteration (recordTime : Time) (r : Rng) : Except Panic (Iteration × Rng) :=
  match Intn 100000 r with
  | .error e => .error e
  | .ok (draw, r1) =>
    if isFault draw then .ok ({ event := none, data := badData }, r1)
    else
      match buildEvent recordTime r1 with
      | .error e => .error e
      | .ok (ev, r2) =>
        match Marshal ev with
        | .error err => .error (.marshalError err)
        | .ok data => .ok ({ event := some ev, data := data }, r2)

/-! ## The simulated clock -/

/-- The statement that the goroutine of `init` executes next: the assignment
`recordTime = time.Now()`, then, in the loop, `faker++`,
`recordTime = recordTime.Add(time.Hour)` and `time.Sleep(time.Second * 1)`. -/
inductive ClockPc where
  | start : ClockPc
  | count : ClockPc
  | advance : ClockPc
  | sleep : ClockPc
  deriving DecidableEq, Repr

/-- The zero value of `time.Time`: 1 January of year 1, 00:00:00 UTC. -/
def zeroTime : Time := ⟨-62135596800 * 1000000000⟩

/-- The state of the clock goroutine: its position, the package variables
`recordTime` and `faker`, and two counters kept for the proofs only, the number
of executions of `recordTime = recordTime.Add(time.Hour)` and the number of
completed calls of `time.Sleep`. -/
structure Clock where
  pc : ClockPc
  recordTime : Time
  faker : Int
  advances : Nat
  sleeps : Nat

/-- The clock before the goroutine has run: the package variables hold their
zero values. -/
def Clock.boot : Clock :=
  { pc := .start, recordTime := zeroTime, faker := 0, advances := 0, sleeps := 0 }

/-- One statement of the clock goroutine; `now` is what `time.Now()` returns. -/
def clockStep (now : Time) (c : Clock) : Clock :=
  match c.pc with
  | .start => { c with pc := .count, recordTime := now }
  | .count => { c with pc := .advance, faker := wrapInt64 (c.faker + 1) }
  | .advance =>
    { c with pc := .sleep, recordTime := c.recordTime.Add Hour, advances := c.advances + 1 }
  | .sleep => { c with pc := .count, sleeps := c.sleeps + 1 }

/-- The clock after `k` statements of its goroutine. -/
def clockRun (now : Time) : Nat → Clock
  | 0 => Clock.boot
  | k + 1 => clockStep now (clockRun now k)

/-! ## Workers and clock together -/

/-- The shared state of the process while the clock loop and the workers run:
the package variables, the random source, the payloads handed to
`topic.Publish` (oldest first) and, for the proofs only, the events built so
far with the number of the worker that built each (oldest first). -/
structure System where
  recordTime : Time
  faker : Int
  rng : Rng
  topic : List String
  built : List (Nat × FakeEvent)

/-- What the scheduler runs next: the body of the clock loop, or one iteration
of worker `w`. -/
inductive Action where
  | tick : Action
  | work (w : Nat) : Action
  deriving DecidableEq, Repr

/-- The state in which the workers start: nothing published, nothing built. -/
def System.boot (t : Time) (f : Int) (r : Rng) : System :=
  { recordTime := t, faker := f, rng := r, topic := [], built := [] }

/-- The events of an iteration added to the record of built events. -/
def recordBuilt (w : Nat) (it : Iteration) (built : List (Nat × FakeEvent)) :
    List (Nat × FakeEvent) :=
  match it.event with
  | none => built
  | some ev => built ++ [(w, ev)]

/-- One scheduled action.  A tick runs `faker++` and
`recordTime = recordTime.Add(time.Hour)`; a worker iteration reads `recordTime`
and the random source and publishes its payload. -/
def sysStep (a : Action) (s : System) : Except Panic System :=
  match a with
  | .tick =>
    .ok { s with faker := wrapInt64 (s.faker + 1), recordTime := s.recordTime.Add Hour }
  | .work w =>
    match startWorkerIteration s.recordTime s.rng with
    | .error e => .error e
    | .ok (it, r) =>
      .ok { s with rng := r, topic := s.topic ++ [it.data], built := recordBuilt w it s.built }

/-- A schedule run from a state, first action first. -/
def sysRun : List Action → System → Except Panic System
  | [], s => .ok s
  | a :: rest, s =>
    match sysStep a s with
    | .error e => .error e
    | .ok s1 => sysRun rest s1

/-- The timestamps of the events that worker `w` built, oldest first. -/
def timestampsOf (w : Nat) (built : List (Nat × FakeEvent)) : List Int :=
  (built.filter (fun e => e.1 == w)).map (fun e => e.2.Timestamp)

/-- The number of slots of the catalog that hold `name`. -/
def slotCount (name : String) : Nat := eventNames.count name

/-- The outcomes of the fault draw, among the `n` first, for which the
iteration publishes the literal. -/
def faultOutcomes (n : Nat) : List Nat := (List.range n).filter isFault

/-! ## Vocabulary of the proofs -/

/-- The text that `Marshal` writes for an event whose `Metadata` is nil. -/
def marshalText (ev : FakeEvent) : List Char :=
  "\x7b\"Name\":".data ++ encodeString ev.Name
    ++ ",\"UUID\":".data ++ encodeString ev.UUID
    ++ ",\"UserUUID\":".data ++ encodeString ev.UserUUID
    ++ ",\"Timestamp\":".data ++ formatInt ev.Timestamp
    ++ ",\"Metadata\":".data ++ "null".data ++ "\x7d".data

/-- The object that the text of an event with nil `Metadata` denotes. -/
def eventObject (ev : FakeEvent) : GoValue :=
  .map [("Name", .str ev.Name), ("UUID", .str ev.UUID), ("UserUUID", .str ev.UserUUID),
    ("Timestamp", .int ev.Timestamp), ("Metadata", .nil)]

/-- Every character is copied unchanged by the encoder. -/
def Plain (s : List Char) : Prop := ∀ c ∈ s, htmlSafe c = true

/-- The value of a run of digits read on top of `a`. -/
def digitsValue (xs : List Char) (a : Nat) : Nat :=
  xs.foldl (fun v c => v * 10 + (c.toNat - 48)) a

/-- What holds of the clock once its first statement has run. -/
def ClockInv (now : Time) (c : Clock) : Prop :=
  c.recordTime.Unix = now.Unix + 3600 * (c.advances : Int) ∧
  ((c.pc = .count ∧ c.advances = c.sleeps) ∨ (c.pc = .advance ∧ c.advances = c.sleeps) ∨
    (c.pc = .sleep ∧ c.advances = c.sleeps + 1))

/-- What holds of the record of built events along a run: the timestamps are
in non-decreasing order and none is ahead of the clock. -/
def SysInv (s : System) : Prop :=
  List.Pairwise (fun a b => a ≤ b) (s.built.map (fun e => e.2.Timestamp)) ∧
  ∀ e ∈ s.built, e.2.Timestamp ≤ s.recordTime.Unix

/-! # Theorems -/

/-! ## Lemmas on the random source and on indexing -/

theorem Intn_ok (n : Nat) (r : Rng) (hn : 0 < n) :
    Intn n r = .ok (r 0 % n, fun i => r (i + 1)) := by
  unfold Intn
  rw [if_neg (Nat.pos_iff_ne_zero.mp hn)]

theorem index_ok {α : Type} (xs : List α) (i : Nat) (h : i < xs.length) :
    index xs i = .ok (xs.get ⟨i, h⟩) := by
  unfold index
  rw [List.getElem?_eq_getElem h]
  rfl

theorem letterRunes_length : letterRunes.length = 52 := by decide

theorem eventNames_length : eventNames.length = 13 := by decide

/-- An ASCII letter: `a` to `z` or `A` to `Z`. -/
theorem letterRunes_ascii : ∀ c ∈ letterRunes,
    (97 ≤ c.toNat ∧ c.toNat ≤ 122) ∨ (65 ≤ c.toNat ∧ c.toNat ≤ 90) := by
  decide

/-! ## The identifier generator -/

theorem randStringFill_spec (k : Nat) : ∀ (i : Nat) (b : List Char) (r : Rng),
    i + k ≤ b.length →
    ∃ b1 r1, randStringFill k i b r = .ok (b1, r1) ∧ b1.length = b.length ∧
      (∀ p, p < i → b1[p]? = b[p]?) ∧
      (∀ p, i ≤ p → p < i + k → ∃ c ∈ letterRunes, b1[p]? = some c) := by
  induction k with
  | zero =>
    intro i b r _
    exact ⟨b, r, rfl, rfl, fun _ _ => rfl, fun p h1 h2 => absurd h2 (by omega)⟩
  | succ k ih =>
    intro i b r hlen
    have hj : r 0 % letterRunes.length < letterRunes.length :=
      Nat.mod_lt _ (by rw [letterRunes_length]; decide)
    obtain ⟨b1, r1, hrun, hl, hlow, hhigh⟩ :=
      ih (i + 1) (b.set i (letterRunes.get ⟨_, hj⟩)) (fun n => r (n + 1))
        (by rw [List.length_set]; omega)
    refine ⟨b1, r1, ?_, ?_, ?_, ?_⟩
    · rw [randStringFill, Intn_ok _ _ (by rw [letterRunes_length]; decide)]
      simp only [index_ok _ _ hj]
      exact hrun
    · rw [hl, List.length_set]
    · intro p hp
      rw [hlow p (by omega), List.getElem?_set_ne (by omega)]
    · intro p hp1 hp2
      rcases Nat.eq_or_lt_of_le hp1 with heq | hlt
      · subst heq
        refine ⟨letterRunes.get ⟨_, hj⟩, List.get_mem _ _ _, ?_⟩
        rw [hlow i (by omega), List.getElem?_set_self (by omega)]
      · exact hhigh p (by omega) (by omega)

theorem randString_spec (n : Nat) (r : Rng) :
    ∃ s r1, randString n r = .ok (s, r1) ∧ s.length = n ∧ ∀ c ∈ s.data, c ∈ letterRunes := by
  obtain ⟨b1, r1, hrun, hl, _, hhigh⟩ :=
    randStringFill_spec n 0 (List.replicate n (Char.ofNat 0)) r (by simp)
  refine ⟨String.mk b1, r1, ?_, ?_, ?_⟩
  · simp only [randString, List.length_replicate] at hrun ⊢
    rw [hrun]
  · show b1.length = n
    rw [hl, List.length_replicate]
  · intro c hc
    obtain ⟨p, hp, hget⟩ := List.getElem_of_mem hc
    have hp2 : p < n := by rw [hl, List.length_replicate] at hp; exact hp
    obtain ⟨c1, hc1, hget1⟩ := hhigh p (Nat.zero_le _) (by omega)
    rw [List.getElem?_eq_getElem hp, hget] at hget1
    cases hget1
    exact hc1

/-- C1: for every length `n` and every stream of outcomes of the random
source, `randString n` returns (it does not panic) a string of exactly `n`
characters, each an element of the 52-letter alphabet `letterRunes`, that is
an ASCII letter `a`-`z` or `A`-`Z`. -/
theorem randString_length_letters (n : Nat) (r : Rng) :
    ∃ s r1, randString n r = .ok (s, r1) ∧ s.length = n ∧
      (∀ c ∈ s.data, c ∈ letterRunes) ∧
      (∀ c ∈ s.data, (97 ≤ c.toNat ∧ c.toNat ≤ 122) ∨ (65 ≤ c.toNat ∧ c.toNat ≤ 90)) ∧
      letterRunes.length = 52 := by
  obtain ⟨s, r1, h1, h2, h3⟩ := randString_spec n r
  exact ⟨s, r1, h1, h2, h3, fun c hc => letterRunes_ascii c (h3 c hc), letterRunes_length⟩

/-! ## The catalog and the two draws -/

theorem eventNames_take_ne_dance : ∀ i : Fin 12, eventNames[i.val]? ≠ some "dance" := by
  decide

theorem drawEventName_ok (r : Rng) :
    ∃ h : r 0 % 12 < eventNames.length,
      drawEventName r = .ok (eventNames.get ⟨r 0 % 12, h⟩, fun i => r (i + 1)) := by
  have h12 : r 0 % 12 < 12 := Nat.mod_lt _ (by decide)
  have h : r 0 % 12 < eventNames.length := by rw [eventNames_length]; omega
  refine ⟨h, ?_⟩
  have hlen : eventNames.length - 1 = 12 := by rw [eventNames_length]
  rw [drawEventName, hlen, Intn_ok _ _ (by decide)]
  simp only [index_ok _ _ h]

theorem faultOutcomes_eq (n : Nat) : faultOutcomes (n + 2) = [0, 1] := by
  induction n with
  | zero => decide
  | succ n ih =>
    unfold faultOutcomes at ih ⊢
    rw [List.range_succ, List.filter_append, ih]
    simp [isFault]

/-- C2 (the code at the failing slot): whatever the random source yields, the
expression `eventNames[rand.Intn(len(eventNames)-1)]` evaluates to a name taken
from one of the slots 0 to 11, and never to `dance`, the name of slot 12. -/
theorem drawEventName_never_last_slot (r : Rng) :
    ∃ i name r1, drawEventName r = .ok (name, r1) ∧ i < 12 ∧
      eventNames[i]? = some name ∧ name ≠ "dance" ∧ eventNames[12]? = some "dance" := by
  obtain ⟨h, hrun⟩ := drawEventName_ok r
  have h12 : r 0 % 12 < 12 := Nat.mod_lt _ (by decide)
  have hget : eventNames[r 0 % 12]? = some (eventNames.get ⟨r 0 % 12, h⟩) :=
    List.getElem?_eq_getElem h
  refine ⟨r 0 % 12, _, _, hrun, h12, hget, ?_, by decide⟩
  intro hd
  rw [hd] at hget
  exact eventNames_take_ne_dance ⟨r 0 % 12, h12⟩ hget

/-- C3 (as stated, refuted): the outcomes of `rand.Intn(100000)` for which the
iteration publishes the literal are not exactly one: both 0 and 1 do. -/
theorem fault_outcomes_not_one :
    ¬ ((faultOutcomes 100000).length = 1) ∧ isFault 0 = true ∧ isFault 1 = true := by
  refine ⟨?_, by decide, by decide⟩
  rw [show (100000 : Nat) = 99998 + 2 from rfl, faultOutcomes_eq]
  decide

/-- C9 (as stated, refuted): `pause_song` and `stop_song` do not appear three
times each in the catalog; they appear twice. -/
theorem claimed_counts_refuted :
    ¬ (slotCount "play_song" = 3 ∧ slotCount "pause_song" = 3 ∧ slotCount "stop_song" = 3 ∧
        slotCount "like_song" = 3 ∧ slotCount "login" = 1 ∧ slotCount "update_prefs" = 1 ∧
        slotCount "dance" = 1) := by
  decide

/-- C9 (amended): in the 13-slot catalog `play_song` and `like_song` appear
three times each, `pause_song` and `stop_song` twice each, and `login`,
`update_prefs` and `dance` once each; no other name appears. -/
theorem catalog_slot_counts :
    eventNames.length = 13 ∧
    slotCount "play_song" = 3 ∧ slotCount "pause_song" = 2 ∧ slotCount "stop_song" = 2 ∧
    slotCount "like_song" = 3 ∧ slotCount "login" = 1 ∧ slotCount "update_prefs" = 1 ∧
    slotCount "dance" = 1 ∧
    eventNames.dedup.length = 7 := by
  decide

/-! ## One iteration of the worker -/

theorem eventNames_nonempty : ∀ name ∈ eventNames, name ≠ "" := by decide

theorem encodeMetadata_none : encodeMetadata none = .ok "null".data := rfl

theorem Marshal_nil_metadata (ev : FakeEvent) (h : ev.Metadata = none) :
    Marshal ev = .ok (String.mk (marshalText ev)) := by
  unfold Marshal
  rw [h, encodeMetadata_none]
  rfl

theorem marshalText_ne_badData (ev : FakeEvent) : String.mk (marshalText ev) ≠ badData := by
  intro h
  have h2 : marshalText ev = badData.data := congrArg String.data h
  have h3 : (marshalText ev).head? = badData.data.head? := congrArg List.head? h2
  simp [marshalText, badData] at h3

theorem buildEvent_spec (t : Time) (r : Rng) :
    ∃ ev r1, buildEvent t r = .ok (ev, r1) ∧ ev.Name ∈ eventNames ∧
      ev.UUID.length = 24 ∧ (∀ c ∈ ev.UUID.data, c ∈ letterRunes) ∧
      ev.UserUUID.length = 24 ∧ (∀ c ∈ ev.UserUUID.data, c ∈ letterRunes) ∧
      ev.Timestamp = t.Unix ∧ ev.Metadata = none := by
  obtain ⟨h, hname⟩ := drawEventName_ok r
  obtain ⟨u, r2, hu, hul, huc⟩ := randString_spec 24 (fun i => r (i + 1))
  obtain ⟨v, r3, hv, hvl, hvc⟩ := randString_spec 24 r2
  refine ⟨⟨eventNames.get ⟨r 0 % 12, h⟩, u, v, t.Unix, none⟩, r3, ?_, List.get_mem _ _ _,
    hul, huc, hvl, hvc, rfl, rfl⟩
  simp only [buildEvent, hname, hu, hv]

theorem startWorkerIteration_spec (t : Time) (r : Rng) :
    (isFault (r 0 % 100000) = true ∧
      startWorkerIteration t r = .ok (⟨none, badData⟩, fun i => r (i + 1))) ∨
    (isFault (r 0 % 100000) = false ∧
      ∃ ev r2, buildEvent t (fun i => r (i + 1)) = .ok (ev, r2) ∧
        Marshal ev = .ok (String.mk (marshalText ev)) ∧
        startWorkerIteration t r = .ok (⟨some ev, String.mk (marshalText ev)⟩, r2)) := by
  cases hf : isFault (r 0 % 100000)
  · right
    obtain ⟨ev, r2, hev, _, _, _, _, _, _, hmeta⟩ := buildEvent_spec t (fun i => r (i + 1))
    refine ⟨rfl, ev, r2, hev, Marshal_nil_metadata ev hmeta, ?_⟩
    simp only [startWorkerIteration, Intn_ok _ _ (show 0 < 100000 by decide), hf, hev,
      Marshal_nil_metadata ev hmeta]
    rfl
  · left
    refine ⟨rfl, ?_⟩
    simp only [startWorkerIteration, Intn_ok _ _ (show 0 < 100000 by decide), hf]
    rfl

/-- C3 (amended): the fault draw `rand.Intn(100000)` has 100,000 outcomes, and
the iteration publishes the malformed literal for exactly two of them, 0 and
1, and an encoded event for every other one. -/
theorem fault_outcomes_two (t : Time) (r : Rng) :
    ∃ d r1 it r2, Intn 100000 r = .ok (d, r1) ∧ d < 100000 ∧
      startWorkerIteration t r = .ok (it, r2) ∧
      (it.data = badData ↔ d ∈ faultOutcomes 100000) ∧
      faultOutcomes 100000 = [0, 1] := by
  have hd : r 0 % 100000 < 100000 := Nat.mod_lt _ (by decide)
  have hout : faultOutcomes 100000 = [0, 1] := faultOutcomes_eq 99998
  rcases startWorkerIteration_spec t r with ⟨hf, hrun⟩ | ⟨hf, ev, r2, _, _, hrun⟩
  · refine ⟨_, _, _, _, Intn_ok _ _ (by decide), hd, hrun, ?_, hout⟩
    rw [hout]
    simp only [isFault, decide_eq_true_eq] at hf
    constructor
    · intro _
      simp only [List.mem_cons, List.mem_singleton, List.not_mem_nil, or_false]
      omega
    · intro _
      rfl
  · refine ⟨_, _, _, _, Intn_ok _ _ (by decide), hd, hrun, ?_, hout⟩
    rw [hout]
    simp only [isFault, decide_eq_false_iff_not] at hf
    constructor
    · intro h
      exact absurd h (marshalText_ne_badData ev)
    · intro h
      simp only [List.mem_cons, List.mem_singleton, List.not_mem_nil, or_false] at h
      omega

/-- C4: for every outcome of the random draws and every value of the simulated
clock, one iteration of `startWorker` reaches `topic.Publish` with a payload
that is either exactly `this is bad data I can't parse`, or the result of
`json.Marshal` on an event whose `Name` is a non-empty string of `eventNames`,
whose `UUID` and `UserUUID` have 24 characters each, and whose `Timestamp` is
the integer `recordTime.Unix()`. -/
theorem payload_shape (t : Time) (r : Rng) :
    ∃ it r1, startWorkerIteration t r = .ok (it, r1) ∧
      ((it.event = none ∧ it.data = "this is bad data I can't parse") ∨
        ∃ ev, it.event = some ev ∧ Marshal ev = .ok it.data ∧
          ev.Name ∈ eventNames ∧ ev.Name ≠ "" ∧
          ev.UUID.length = 24 ∧ ev.UserUUID.length = 24 ∧ ev.Timestamp = t.Unix) := by
  rcases startWorkerIteration_spec t r with ⟨_, hrun⟩ | ⟨_, ev, r2, hev, hm, hrun⟩
  · exact ⟨_, _, hrun, Or.inl ⟨rfl, rfl⟩⟩
  · obtain ⟨ev1, r3, hev1, hname, hu, _, hv, _, hts, _⟩ := buildEvent_spec t (fun i => r (i + 1))
    rw [hev] at hev1
    cases hev1
    exact ⟨_, _, hrun, Or.inr ⟨ev, rfl, hm, hname, eventNames_nonempty _ hname, hu, hv, hts⟩⟩

/-- C10: one iteration of `startWorker` never panics while it builds its
payload: it returns for every outcome of the random draws and every clock
value; the index into `eventNames` is drawn with a positive bound and lies in
0..12, every index into `letterRunes` is drawn with a positive bound and lies
in 0..51 (so `randString 24` returns), and `json.Marshal` returns no error on
the event that the worker builds. -/
theorem iteration_never_panics (t : Time) (r : Rng) :
    (∃ it r1, startWorkerIteration t r = .ok (it, r1)) ∧
    (∃ i r1, Intn (eventNames.length - 1) r = .ok (i, r1) ∧ i ≤ 12 ∧
      ∃ name, index eventNames i = .ok name) ∧
    (∃ j r1, Intn letterRunes.length r = .ok (j, r1) ∧ j ≤ 51 ∧
      ∃ c, index letterRunes j = .ok c) ∧
    (∃ s r1, randString 24 r = .ok (s, r1)) ∧
    (∃ ev r1 data, buildEvent t r = .ok (ev, r1) ∧ Marshal ev = .ok data) := by
  refine ⟨?_, ?_, ?_, ?_, ?_⟩
  · rcases startWorkerIteration_spec t r with ⟨_, hrun⟩ | ⟨_, _, _, _, _, hrun⟩
    · exact ⟨_, _, hrun⟩
    · exact ⟨_, _, hrun⟩
  · have h12 : r 0 % 12 < 12 := Nat.mod_lt _ (by decide)
    have h : r 0 % 12 < eventNames.length := by rw [eventNames_length]; omega
    have hlen : eventNames.length - 1 = 12 := by rw [eventNames_length]
    exact ⟨r 0 % 12, _, by rw [hlen]; exact Intn_ok _ _ (by decide), by omega, _,
      index_ok _ _ h⟩
  · have h52 : r 0 % 52 < 52 := Nat.mod_lt _ (by decide)
    have h : r 0 % 52 < letterRunes.length := by rw [letterRunes_length]; omega
    exact ⟨r 0 % 52, _, by rw [letterRunes_length]; exact Intn_ok _ _ (by decide), by omega, _,
      index_ok _ _ h⟩
  · obtain ⟨s, r1, hs, _⟩ := randString_spec 24 r
    exact ⟨s, r1, hs⟩
  · obtain ⟨ev, r1, hev, _, _, _, _, _, _, hmeta⟩ := buildEvent_spec t r
    exact ⟨ev, r1, _, hev, Marshal_nil_metadata ev hmeta⟩

/-! ## The simulated clock -/

theorem Unix_Add_Hour (t : Time) : (t.Add Hour).Unix = t.Unix + 3600 := by
  simp only [Time.Add, Time.Unix, Hour, Second]
  omega

theorem Unix_le_Add_Hour (t : Time) : t.Unix ≤ (t.Add Hour).Unix := by
  rw [Unix_Add_Hour]
  omega

theorem clockInv_step (now : Time) (c : Clock) (h : ClockInv now c) :
    ClockInv now (clockStep now c) := by
  obtain ⟨ht, hpc⟩ := h
  rcases hpc with ⟨hp, hn⟩ | ⟨hp, hn⟩ | ⟨hp, hn⟩
  · exact ⟨by simp only [clockStep, hp]; exact ht, Or.inr (Or.inl ⟨by simp [clockStep, hp], by
      simp only [clockStep, hp]; exact hn⟩)⟩
  · refine ⟨?_, Or.inr (Or.inr ⟨by simp [clockStep, hp], by simp only [clockStep, hp]; omega⟩)⟩
    simp only [clockStep, hp]
    rw [Unix_Add_Hour, ht]
    push_cast
    ring
  · exact ⟨by simp only [clockStep, hp]; exact ht, Or.inl ⟨by simp [clockStep, hp], by
      simp only [clockStep, hp]; omega⟩⟩

theorem clockInv_run (now : Time) (k : Nat) : ClockInv now (clockRun now (k + 1)) := by
  induction k with
  | zero =>
    refine ⟨?_, Or.inl ⟨rfl, rfl⟩⟩
    show now.Unix = now.Unix + 3600 * ((0 : Nat) : Int)
    simp
  | succ k ih => exact clockInv_step now _ ih

theorem clockStep_mono (now : Time) (c : Clock) (h : c.pc ≠ .start) :
    c.recordTime.Unix ≤ (clockStep now c).recordTime.Unix := by
  cases hp : c.pc
  · exact absurd hp h
  · simp only [clockStep, hp]; exact le_refl _
  · simp only [clockStep, hp]; exact Unix_le_Add_Hour _
  · simp only [clockStep, hp]; exact le_refl _

theorem clockRun_pc_ne_start (now : Time) (k : Nat) : (clockRun now (k + 1)).pc ≠ .start := by
  obtain ⟨_, hpc⟩ := clockInv_run now k
  rcases hpc with ⟨hp, _⟩ | ⟨hp, _⟩ | ⟨hp, _⟩ <;> rw [hp] <;> decide

theorem clockRun_mono (now : Time) (k j : Nat) :
    (clockRun now (k + 1)).recordTime.Unix ≤ (clockRun now (k + 1 + j)).recordTime.Unix := by
  induction j with
  | zero => exact le_refl _
  | succ j ih =>
    refine le_trans ih ?_
    have h := clockStep_mono now (clockRun now (k + 1 + j))
      (by rw [show k + 1 + j = (k + j) + 1 by omega]; exact clockRun_pc_ne_start now (k + j))
    exact h

theorem clockRun_rounds (now : Time) (n : Nat) :
    (clockRun now (3 * n + 1)).pc = .count ∧ (clockRun now (3 * n + 1)).advances = n ∧
      (clockRun now (3 * n + 1)).sleeps = n := by
  induction n with
  | zero => exact ⟨rfl, rfl, rfl⟩
  | succ n ih =>
    obtain ⟨hp, ha, hs⟩ := ih
    have e : 3 * (n + 1) + 1 = (3 * n + 1) + 1 + 1 + 1 := by omega
    rw [e]
    show (clockStep now (clockStep now (clockStep now (clockRun now (3 * n + 1))))).pc = .count ∧
      (clockStep now (clockStep now (clockStep now (clockRun now (3 * n + 1))))).advances = n + 1 ∧
      (clockStep now (clockStep now (clockStep now (clockRun now (3 * n + 1))))).sleeps = n + 1
    generalize clockRun now (3 * n + 1) = c at hp ha hs
    simp [clockStep, hp, ha, hs]

/-- C7: the clock goroutine of `init` first sets `recordTime` to the start
time; every execution of `recordTime = recordTime.Add(time.Hour)` adds exactly
3600 to `recordTime.Unix()`; in every state reached after the first statement,
`recordTime.Unix()` is the start plus 3600 times the number of advances made,
it never decreases from a reachable state to a later one, the number of
advances is the number of completed sleeps or one more, and so the value
differs from start plus `sleeps` hours by at most 3600; every number `n` of
advances and of completed sleeps is reached. -/
theorem clock_step_invariant (now : Time) (k j n : Nat) :
    (clockRun now 1).recordTime = now ∧
    (∀ t : Time, (t.Add Hour).Unix = t.Unix + 3600) ∧
    (clockRun now (k + 1)).recordTime.Unix
      = now.Unix + 3600 * ((clockRun now (k + 1)).advances : Int) ∧
    (clockRun now (k + 1)).recordTime.Unix ≤ (clockRun now (k + 1 + j)).recordTime.Unix ∧
    (clockRun now (k + 1)).sleeps ≤ (clockRun now (k + 1)).advances ∧
    (clockRun now (k + 1)).advances ≤ (clockRun now (k + 1)).sleeps + 1 ∧
    |(clockRun now (k + 1)).recordTime.Unix
      - (now.Unix + 3600 * ((clockRun now (k + 1)).sleeps : Int))| ≤ 3600 ∧
    ((clockRun now (3 * n + 1)).advances = n ∧ (clockRun now (3 * n + 1)).sleeps = n ∧
      (clockRun now (3 * n + 1)).recordTime.Unix = now.Unix + 3600 * (n : Int)) := by
  obtain ⟨ht, hpc⟩ := clockInv_run now k
  have hbounds : (clockRun now (k + 1)).sleeps ≤ (clockRun now (k + 1)).advances ∧
      (clockRun now (k + 1)).advances ≤ (clockRun now (k + 1)).sleeps + 1 := by
    rcases hpc with ⟨_, hn⟩ | ⟨_, hn⟩ | ⟨_, hn⟩ <;> omega
  obtain ⟨_, ha, hs⟩ := clockRun_rounds now n
  refine ⟨rfl, Unix_Add_Hour, ht, clockRun_mono now k j, hbounds.1, hbounds.2, ?_, ha, hs, ?_⟩
  · rw [ht, abs_le]
    constructor <;> omega
  · have h := (clockInv_run now (3 * n)).1
    rw [ha] at h
    exact h

/-! ## Workers and clock together -/

theorem sysStep_work (w : Nat) (s : System) :
    ∃ s1, sysStep (.work w) s = .ok s1 ∧ s1.recordTime = s.recordTime ∧ s1.faker = s.faker ∧
      (s1.built = s.built ∨
        ∃ ev, s1.built = s.built ++ [(w, ev)] ∧ ev.Timestamp = s.recordTime.Unix) := by
  rcases startWorkerIteration_spec s.recordTime s.rng with ⟨_, hrun⟩ | ⟨_, ev, r2, hev, _, hrun⟩
  · refine ⟨{ s with rng := fun i => s.rng (i + 1), topic := s.topic ++ [badData] }, ?_, rfl, rfl,
      Or.inl rfl⟩
    simp only [sysStep, hrun, recordBuilt]
  · obtain ⟨ev1, r3, hev1, _, _, _, _, _, hts, _⟩ :=
      buildEvent_spec s.recordTime (fun i => s.rng (i + 1))
    rw [hev] at hev1
    cases hev1
    refine ⟨{ s with rng := r2, topic := s.topic ++ [String.mk (marshalText ev)],
                     built := s.built ++ [(w, ev)] }, ?_, rfl, rfl, Or.inr ⟨ev, rfl, hts⟩⟩
    simp only [sysStep, hrun, recordBuilt]

theorem sysStep_inv (a : Action) (s : System) (h : SysInv s) :
    ∃ s1, sysStep a s = .ok s1 ∧ SysInv s1 := by
  obtain ⟨hsorted, hle⟩ := h
  cases a with
  | tick =>
    refine ⟨_, rfl, hsorted, ?_⟩
    intro e he
    exact le_trans (hle e he) (Unix_le_Add_Hour _)
  | work w =>
    obtain ⟨s1, hstep, ht, _, hb⟩ := sysStep_work w s
    refine ⟨s1, hstep, ?_⟩
    rcases hb with hb | ⟨ev, hb, hts⟩
    · unfold SysInv
      rw [hb, ht]
      exact ⟨hsorted, hle⟩
    · unfold SysInv
      rw [hb, ht]
      constructor
      · rw [List.map_append, List.pairwise_append]
        refine ⟨hsorted, List.pairwise_singleton _ _, ?_⟩
        intro a ha b hb2
        simp only [List.map_cons, List.map_nil, List.mem_singleton] at hb2
        obtain ⟨e, he, rfl⟩ := List.mem_map.mp ha
        rw [hb2, hts]
        exact hle e he
      · intro e he
        rcases List.mem_append.mp he with he | he
        · exact hle e he
        · simp only [List.mem_singleton] at he
          rw [he, hts]

theorem sysRun_inv (sched : List Action) : ∀ s : System, SysInv s →
    ∃ s1, sysRun sched s = .ok s1 ∧ SysInv s1 := by
  induction sched with
  | nil => exact fun s h => ⟨s, rfl, h⟩
  | cons a rest ih =>
    intro s h
    obtain ⟨s1, hstep, h1⟩ := sysStep_inv a s h
    obtain ⟨s2, hrun, h2⟩ := ih s1 h1
    exact ⟨s2, by simp only [sysRun, hstep]; exact hrun, h2⟩

theorem timestampsOf_pairwise (w : Nat) (built : List (Nat × FakeEvent))
    (h : List.Pairwise (fun a b => a ≤ b) (built.map (fun e => e.2.Timestamp))) :
    List.Pairwise (fun a b => a ≤ b) (timestampsOf w built) := by
  unfold timestampsOf
  exact h.sublist ((List.filter_sublist built).map _)

/-- C8: a worker iteration run in any state returns, leaves `recordTime` and
`faker` as they were, and the event it builds, when it builds one, has
`Timestamp` equal to `recordTime.Unix()` of that state; and along every
schedule of clock ticks and worker iterations, started with nothing built, the
timestamps of the events built by one worker, in the order in which they were
built, never decrease. -/
theorem timestamps_follow_clock (s : System) (w : Nat) (t0 : Time) (f0 : Int) (r0 : Rng)
    (sched : List Action) :
    (∃ s1, sysStep (.work w) s = .ok s1 ∧ s1.recordTime = s.recordTime ∧ s1.faker = s.faker ∧
      (s1.built = s.built ∨
        ∃ ev, s1.built = s.built ++ [(w, ev)] ∧ ev.Timestamp = s.recordTime.Unix)) ∧
    (∃ s2, sysRun sched (System.boot t0 f0 r0) = .ok s2 ∧
      List.Pairwise (fun a b => a ≤ b) (timestampsOf w s2.built)) := by
  refine ⟨sysStep_work w s, ?_⟩
  obtain ⟨s2, hrun, hinv⟩ := sysRun_inv sched (System.boot t0 f0 r0)
    ⟨List.Pairwise.nil, fun e he => absurd he (List.not_mem_nil e)⟩
  exact ⟨s2, hrun, timestampsOf_pairwise w _ hinv.1⟩

/-! ## Strings that need no escape -/

theorem htmlSafe_facts (c : Char) (h : htmlSafe c = true) :
    c.toNat < 128 ∧ c ≠ '"' ∧ c ≠ '\\' ∧ ¬ c.toNat < 32 := by
  simp only [htmlSafe, Bool.and_eq_true, decide_eq_true_eq, Bool.not_eq_true', beq_eq_false_iff_ne,
    ne_eq] at h
  obtain ⟨⟨⟨⟨⟨⟨h1, h2⟩, h3⟩, h4⟩, _⟩, _⟩, _⟩ := h
  exact ⟨h2, h3, h4, by omega⟩

theorem escapeRune_plain (c : Char) (h : htmlSafe c = true) : escapeRune c = [c] := by
  unfold escapeRune
  rw [if_pos (htmlSafe_facts c h).1, if_pos h]

theorem flatMap_escapeRune_plain (s : List Char) (h : Plain s) : s.flatMap escapeRune = s := by
  induction s with
  | nil => rfl
  | cons c cs ih =>
    rw [List.flatMap_cons, escapeRune_plain c (h c (List.mem_cons_self _ _)),
      ih (fun d hd => h d (List.mem_cons_of_mem _ hd))]
    rfl

theorem encodeString_plain (s : String) (h : Plain s.data) :
    encodeString s = '"' :: (s.data ++ ['"']) := by
  unfold encodeString
  rw [flatMap_escapeRune_plain s.data h]

theorem scanString_plain (s : List Char) : ∀ (fuel : Nat) (rest acc : List Char),
    Plain s → s.length < fuel →
    scanString fuel (s ++ '"' :: rest) acc = .ok (acc.reverse ++ s, rest) := by
  induction s with
  | nil =>
    intro fuel rest acc _ hf
    obtain ⟨f, rfl⟩ : ∃ f, fuel = f + 1 := ⟨fuel - 1, by simp at hf; omega⟩
    simp [scanString]
  | cons c cs ih =>
    intro fuel rest acc hp hf
    obtain ⟨f, rfl⟩ : ∃ f, fuel = f + 1 := ⟨fuel - 1, by simp at hf; omega⟩
    obtain ⟨_, h2, h3, h4⟩ := htmlSafe_facts c (hp c (List.mem_cons_self _ _))
    have hrec := ih f rest (c :: acc) (fun d hd => hp d (List.mem_cons_of_mem _ hd))
      (by simp at hf; omega)
    simp only [List.cons_append, scanString, if_neg h2, if_neg h3, if_neg h4]
    refine Eq.trans hrec ?_
    simp

theorem letterRunes_plain : ∀ c ∈ letterRunes, htmlSafe c = true := by decide

theorem eventNames_plain : ∀ name ∈ eventNames, ∀ c ∈ name.data, htmlSafe c = true := by decide

/-! ## Decimal numbers -/

theorem digitChar_facts (d : Nat) (h : d < 10) :
    isDigit (digitChar d) = true ∧ (digitChar d).toNat - 48 = d ∧
      (digitChar d = '0' → d = 0) ∧ digitChar d ≠ '-' := by
  interval_cases d <;> decide

theorem scanDigits_append (xs : List Char) : ∀ (a : Nat) (d : Char) (rest : List Char),
    (∀ c ∈ xs, isDigit c = true) → isDigit d = false →
    scanDigits (xs ++ d :: rest) a = (digitsValue xs a, d :: rest) := by
  induction xs with
  | nil =>
    intro a d rest _ hd
    simp [scanDigits, hd, digitsValue]
  | cons c cs ih =>
    intro a d rest hx hd
    have hc : isDigit c = true := hx c (List.mem_cons_self _ _)
    have hrec := ih (a * 10 + (c.toNat - 48)) d rest
      (fun e he => hx e (List.mem_cons_of_mem _ he)) hd
    simp only [List.cons_append, scanDigits, hc, if_true]
    exact hrec

theorem formatBits_acc (fuel : Nat) : ∀ (u : Nat) (acc : List Char),
    formatBits fuel u acc = formatBits fuel u [] ++ acc := by
  induction fuel with
  | zero => intro u acc; rfl
  | succ f ih =>
    intro u acc
    simp only [formatBits]
    split
    · rfl
    · rw [ih (u / 10) (digitChar (u % 10) :: acc), ih (u / 10) [digitChar (u % 10)]]
      simp

theorem formatBits_spec (fuel : Nat) : ∀ u : Nat, u < fuel →
    (∀ c ∈ formatBits fuel u [], isDigit c = true) ∧
    digitsValue (formatBits fuel u []) 0 = u ∧
    (∃ c tl, formatBits fuel u [] = c :: tl ∧ isDigit c = true ∧ c ≠ '-' ∧ (c = '0' → u = 0)) := by
  induction fuel with
  | zero => intro u hu; omega
  | succ f ih =>
    intro u hu
    by_cases h10 : u < 10
    · obtain ⟨h1, h2, h3, h4⟩ := digitChar_facts u h10
      have e : formatBits (f + 1) u [] = [digitChar u] := by simp only [formatBits, if_pos h10]
      rw [e]
      refine ⟨?_, ?_, _, _, rfl, h1, h4, h3⟩
      · intro c hc
        rw [List.mem_singleton] at hc
        rw [hc]; exact h1
      · simp only [digitsValue, List.foldl_cons, List.foldl_nil]
        omega
    · obtain ⟨h1, h2, _, _⟩ := digitChar_facts (u % 10) (Nat.mod_lt _ (by decide))
      obtain ⟨g1, g2, c, tl, g3, g4, g5, g6⟩ := ih (u / 10) (by omega)
      have e : formatBits (f + 1) u [] = formatBits f (u / 10) [] ++ [digitChar (u % 10)] := by
        simp only [formatBits, if_neg h10]
        exact formatBits_acc f _ _
      rw [e]
      refine ⟨?_, ?_, c, tl ++ [digitChar (u % 10)], by rw [g3]; rfl, g4, g5, ?_⟩
      · intro x hx
        rcases List.mem_append.mp hx with hx | hx
        · exact g1 x hx
        · rw [List.mem_singleton] at hx
          rw [hx]; exact h1
      · unfold digitsValue at g2 ⊢
        rw [List.foldl_append, g2]
        simp only [List.foldl_cons, List.foldl_nil]
        omega
      · intro hc
        have := g6 hc
        omega

theorem scanNat_formatNat (u : Nat) (d : Char) (rest : List Char)
    (hd : isDigit d = false) (h1 : d ≠ '.') (h2 : d ≠ 'e') (h3 : d ≠ 'E') :
    scanNat (formatNat u ++ d :: rest) = .ok (u, d :: rest) := by
  obtain ⟨g1, g2, c, tl, g3, g4, _, g6⟩ := formatBits_spec (u + 1) u (by omega)
  have hscan := scanDigits_append (formatBits (u + 1) u []) 0 d rest g1 hd
  rw [g2] at hscan
  unfold formatNat
  by_cases hc : c = '0'
  · have hu : u = 0 := g6 hc
    subst hu
    have e : formatBits (0 + 1) 0 [] = ['0'] := by decide
    have hz : isDigit '0' = true := by decide
    rw [e]
    simp only [List.cons_append, List.nil_append, scanNat, hz, hd]
    simp [hd, h1, h2, h3]
  · rw [g3] at hscan ⊢
    simp only [List.cons_append] at hscan ⊢
    simp only [scanNat, g4, if_neg hc, hscan, hd]
    simp [hd, h1, h2, h3]

theorem scanInt_formatInt (v : Int) (d : Char) (rest : List Char)
    (hd : isDigit d = false) (h1 : d ≠ '.') (h2 : d ≠ 'e') (h3 : d ≠ 'E') :
    scanInt (formatInt v ++ d :: rest) = .ok (v, d :: rest) := by
  have hnat := scanNat_formatNat v.natAbs d rest hd h1 h2 h3
  unfold formatInt
  by_cases hv : v < 0
  · rw [if_pos hv]
    simp only [List.cons_append, scanInt, if_true, hnat]
    have : -((v.natAbs : Nat) : Int) = v := by omega
    rw [this]
  · rw [if_neg hv]
    obtain ⟨_, _, c, tl, g3, _, g5, _⟩ := formatBits_spec (v.natAbs + 1) v.natAbs (by omega)
    have e : formatNat v.natAbs = c :: tl := g3
    rw [e] at hnat ⊢
    simp only [List.cons_append] at hnat ⊢
    simp only [scanInt, if_neg g5, hnat]
    have : ((v.natAbs : Nat) : Int) = v := by omega
    rw [this]

/-! ## Reading back what `Marshal` writes -/

theorem skipSpace_quote (cs : List Char) : skipSpace ('"' :: cs) = '"' :: cs := by
  simp [skipSpace, isSpace]

theorem skipSpace_colon (cs : List Char) : skipSpace (':' :: cs) = ':' :: cs := by
  simp [skipSpace, isSpace]

theorem skipSpace_comma (cs : List Char) : skipSpace (',' :: cs) = ',' :: cs := by
  simp [skipSpace, isSpace]

theorem skipSpace_close (cs : List Char) : skipSpace ('\x7d' :: cs) = '\x7d' :: cs := by
  simp [skipSpace, isSpace]

theorem skipSpace_open (cs : List Char) : skipSpace ('\x7b' :: cs) = '\x7b' :: cs := by
  simp [skipSpace, isSpace]

theorem skipSpace_n (cs : List Char) : skipSpace ('n' :: cs) = 'n' :: cs := by
  simp [skipSpace, isSpace]

theorem skipSpace_digit (c : Char) (cs : List Char) (h : isDigit c = true ∨ c = '-') :
    skipSpace (c :: cs) = c :: cs := by
  have : isSpace c = false := by
    rcases h with h | h
    · simp only [isDigit, Bool.and_eq_true, decide_eq_true_eq] at h
      have h9 : c ≠ '\t' := by rintro rfl; exact absurd h (by decide)
      have h10 : c ≠ '\n' := by rintro rfl; exact absurd h (by decide)
      have h13 : c ≠ '\r' := by rintro rfl; exact absurd h (by decide)
      have h32 : c ≠ ' ' := by rintro rfl; exact absurd h (by decide)
      simp [isSpace, h9, h10, h13, h32]
    · rw [h]; decide
  simp [skipSpace, this]

theorem scanString_at (s rest : List Char) (h : Plain s) :
    scanString (s ++ '"' :: rest).length (s ++ '"' :: rest) [] = .ok (s, rest) := by
  have := scanString_plain s (s ++ '"' :: rest).length rest [] h (by simp)
  simpa using this

theorem parseValue_string (f : Nat) (v rest : List Char) (hv : Plain v) :
    parseValue (f + 1) ('"' :: (v ++ '"' :: rest)) = .ok (.str (String.mk v), rest) := by
  simp only [parseValue, skipSpace_quote, if_true, scanString_at v rest hv]

theorem parseMembers_string (f : Nat) (k v rest : List Char) (acc : List (String × GoValue))
    (hk : Plain k) (hv : Plain v) :
    parseMembers (f + 1 + 1) ('"' :: (k ++ '"' :: ':' :: '"' :: (v ++ '"' :: ',' :: rest))) acc
      = parseMembers (f + 1) rest (acc ++ [(String.mk k, .str (String.mk v))]) := by
  rw [parseMembers]
  simp only [skipSpace_quote, ne_eq, not_true_eq_false, if_false, scanString_at k _ hk,
    skipSpace_colon, parseValue_string f v _ hv, skipSpace_comma, if_true]

theorem formatInt_head (v : Int) :
    ∃ c tl, formatInt v = c :: tl ∧ (isDigit c = true ∨ c = '-') := by
  unfold formatInt
  by_cases hv : v < 0
  · rw [if_pos hv]
    exact ⟨_, _, rfl, Or.inr rfl⟩
  · rw [if_neg hv]
    obtain ⟨_, _, c, tl, g3, g4, _, _⟩ := formatBits_spec (v.natAbs + 1) v.natAbs (by omega)
    exact ⟨c, tl, g3, Or.inl g4⟩

theorem number_head_facts (c : Char) (h : isDigit c = true ∨ c = '-') :
    c ≠ '"' ∧ c ≠ '\x7b' ∧ c ≠ '[' ∧ c ≠ 'n' ∧ c ≠ 't' ∧ c ≠ 'f' := by
  rcases h with h | h
  · simp only [isDigit, Bool.and_eq_true, decide_eq_true_eq] at h
    refine ⟨?_, ?_, ?_, ?_, ?_, ?_⟩ <;> (rintro rfl; exact absurd h (by decide))
  · rw [h]; decide

theorem parseValue_int (f : Nat) (v : Int) (rest : List Char) :
    parseValue (f + 1) (formatInt v ++ ',' :: rest) = .ok (.int v, ',' :: rest) := by
  have hscan := scanInt_formatInt v ',' rest (by decide) (by decide) (by decide) (by decide)
  obtain ⟨c, tl, e, hc⟩ := formatInt_head v
  obtain ⟨n1, n2, n3, n4, n5, n6⟩ := number_head_facts c hc
  rw [e] at hscan ⊢
  simp only [List.cons_append] at hscan ⊢
  simp only [parseValue, skipSpace_digit c _ hc, if_neg n1, if_neg n2, if_neg n3, if_neg n4,
    if_neg n5, if_neg n6, hscan]

theorem parseValue_null (f : Nat) (rest : List Char) :
    parseValue (f + 1) ('n' :: 'u' :: 'l' :: 'l' :: rest) = .ok (.nil, rest) := by
  have e : expectWord "ull".data ('u' :: 'l' :: 'l' :: rest) = some rest := by
    simp [expectWord, List.isPrefixOf]
  simp only [parseValue, skipSpace_n, e]
  simp

theorem parseMembers_int (f : Nat) (k rest : List Char) (v : Int)
    (acc : List (String × GoValue)) (hk : Plain k) :
    parseMembers (f + 1 + 1) ('"' :: (k ++ '"' :: ':' :: (formatInt v ++ ',' :: rest))) acc
      = parseMembers (f + 1) rest (acc ++ [(String.mk k, .int v)]) := by
  rw [parseMembers]
  simp only [skipSpace_quote, ne_eq, not_true_eq_false, if_false, scanString_at k _ hk,
    skipSpace_colon, parseValue_int f v _, skipSpace_comma, if_true]

theorem parseMembers_null_last (f : Nat) (k rest : List Char)
    (acc : List (String × GoValue)) (hk : Plain k) :
    parseMembers (f + 1 + 1) ('"' :: (k ++ '"' :: ':' :: 'n' :: 'u' :: 'l' :: 'l' :: '\x7d' :: rest))
      acc = .ok (.map (acc ++ [(String.mk k, .nil)]), rest) := by
  rw [parseMembers]
  simp only [skipSpace_quote, ne_eq, not_true_eq_false, if_false, scanString_at k _ hk,
    skipSpace_colon, parseValue_null f _, skipSpace_close]
  simp

theorem marshalText_plain (ev : FakeEvent) (h1 : Plain ev.Name.data) (h2 : Plain ev.UUID.data)
    (h3 : Plain ev.UserUUID.data) :
    marshalText ev = '\x7b' :: '"' :: ("Name".data ++ '"' :: ':' :: '"' :: (ev.Name.data ++ '"' :: ','
      :: '"' :: ("UUID".data ++ '"' :: ':' :: '"' :: (ev.UUID.data ++ '"' :: ','
      :: '"' :: ("UserUUID".data ++ '"' :: ':' :: '"' :: (ev.UserUUID.data ++ '"' :: ','
      :: '"' :: ("Timestamp".data ++ '"' :: ':' :: (formatInt ev.Timestamp ++ ','
      :: '"' :: ("Metadata".data ++ '"' :: ':' :: 'n' :: 'u' :: 'l' :: 'l' :: '\x7d' :: []))))))))) := by
  unfold marshalText
  rw [encodeString_plain _ h1, encodeString_plain _ h2, encodeString_plain _ h3]
  simp

theorem parseValue_marshalText (n : Nat) (ev : FakeEvent) (h1 : Plain ev.Name.data)
    (h2 : Plain ev.UUID.data) (h3 : Plain ev.UserUUID.data) :
    parseValue (n + 1 + 1 + 1 + 1 + 1 + 1 + 1) (marshalText ev) = .ok (eventObject ev, []) := by
  rw [marshalText_plain ev h1 h2 h3, parseValue]
  simp only [skipSpace_open, skipSpace_quote]
  rw [if_neg (by decide), if_pos trivial]
  have k1 : Plain "Name".data := by unfold Plain; decide
  have k2 : Plain "UUID".data := by unfold Plain; decide
  have k3 : Plain "UserUUID".data := by unfold Plain; decide
  have k4 : Plain "Timestamp".data := by unfold Plain; decide
  have k5 : Plain "Metadata".data := by unfold Plain; decide
  have step := parseMembers_null_last n "Metadata".data [] [("Name", .str ev.Name),
    ("UUID", .str ev.UUID), ("UserUUID", .str ev.UserUUID), ("Timestamp", .int ev.Timestamp)] k5
  rw [parseMembers_string _ _ _ _ _ k1 h1, parseMembers_string _ _ _ _ _ k2 h2,
    parseMembers_string _ _ _ _ _ k3 h3, parseMembers_int _ _ _ _ _ k4]
  exact step

theorem parseJSON_marshalText (ev : FakeEvent) (h1 : Plain ev.Name.data)
    (h2 : Plain ev.UUID.data) (h3 : Plain ev.UserUUID.data) :
    parseJSON (String.mk (marshalText ev)) = .ok (eventObject ev) := by
  obtain ⟨n, hn⟩ : ∃ n, (String.mk (marshalText ev)).length + 1 = n + 1 + 1 + 1 + 1 + 1 + 1 + 1 := by
    refine ⟨(marshalText ev).length - 6, ?_⟩
    show (marshalText ev).length + 1 = _
    have : 6 ≤ (marshalText ev).length := by
      rw [marshalText_plain ev h1 h2 h3]
      simp
    omega
  unfold parseJSON
  rw [hn]
  dsimp only
  rw [parseValue_marshalText n ev h1 h2 h3]
  rfl

theorem setFields_eventObject (ev : FakeEvent) (hts : inInt64 ev.Timestamp = true) :
    setFields [("Name", .str ev.Name), ("UUID", .str ev.UUID), ("UserUUID", .str ev.UserUUID),
      ("Timestamp", .int ev.Timestamp), ("Metadata", .nil)] zeroEvent
      = .ok ⟨ev.Name, ev.UUID, ev.UserUUID, ev.Timestamp, none⟩ := by
  have a1 : foldEq "Name" "Name" = true := by decide
  have b1 : foldEq "UUID" "Name" = false := by decide
  have b2 : foldEq "UUID" "UUID" = true := by decide
  have c1 : foldEq "UserUUID" "Name" = false := by decide
  have c2 : foldEq "UserUUID" "UUID" = false := by decide
  have c3 : foldEq "UserUUID" "UserUUID" = true := by decide
  have d1 : foldEq "Timestamp" "Name" = false := by decide
  have d2 : foldEq "Timestamp" "UUID" = false := by decide
  have d3 : foldEq "Timestamp" "UserUUID" = false := by decide
  have d4 : foldEq "Timestamp" "Timestamp" = true := by decide
  have e1 : foldEq "Metadata" "Name" = false := by decide
  have e2 : foldEq "Metadata" "UUID" = false := by decide
  have e3 : foldEq "Metadata" "UserUUID" = false := by decide
  have e4 : foldEq "Metadata" "Timestamp" = false := by decide
  have e5 : foldEq "Metadata" "Metadata" = true := by decide
  simp [setFields, setField, stringField, zeroEvent, a1, b1, b2, c1, c2, c3, d1, d2, d3, d4,
    e1, e2, e3, e4, e5, hts]

theorem Unmarshal_marshalText (ev : FakeEvent) (h1 : Plain ev.Name.data)
    (h2 : Plain ev.UUID.data) (h3 : Plain ev.UserUUID.data)
    (hts : inInt64 ev.Timestamp = true) :
    Unmarshal (String.mk (marshalText ev))
      = .ok ⟨ev.Name, ev.UUID, ev.UserUUID, ev.Timestamp, none⟩ := by
  unfold Unmarshal
  rw [parseJSON_marshalText ev h1 h2 h3]
  exact setFields_eventObject ev hts

/-- C5: for every event of the shape that `startWorker` builds (`Name` taken
from `eventNames`, `UUID` and `UserUUID` strings of 24 letters of
`letterRunes`, `Timestamp` any `int64`, `Metadata` unset), `json.Marshal`
returns bytes, and decoding these bytes returns an event whose `Name`, `UUID`,
`UserUUID`, `Timestamp` and `Metadata` are those of the source event. -/
theorem marshal_roundtrip (ev : FakeEvent) (hname : ev.Name ∈ eventNames)
    (hu : ev.UUID.length = 24 ∧ ∀ c ∈ ev.UUID.data, c ∈ letterRunes)
    (hv : ev.UserUUID.length = 24 ∧ ∀ c ∈ ev.UserUUID.data, c ∈ letterRunes)
    (hts : inInt64 ev.Timestamp = true) (hmeta : ev.Metadata = none) :
    ∃ data back, Marshal ev = .ok data ∧ Unmarshal data = .ok back ∧
      back.Name = ev.Name ∧ back.UUID = ev.UUID ∧ back.UserUUID = ev.UserUUID ∧
      back.Timestamp = ev.Timestamp ∧ back.Metadata = ev.Metadata := by
  refine ⟨_, _, Marshal_nil_metadata ev hmeta,
    Unmarshal_marshalText ev (eventNames_plain _ hname)
      (fun c hc => letterRunes_plain c (hu.2 c hc))
      (fun c hc => letterRunes_plain c (hv.2 c hc)) hts, rfl, rfl, rfl, rfl, hmeta.symm⟩

/-- C5 (witness): the round trip at the event `login` with identifiers
`abcdefghijklmnopqrstuvwx` and `ABCDEFGHIJKLMNOPQRSTUVWX` and timestamp
1700000000. -/
theorem marshal_roundtrip_witness :
    ∃ data back,
      Marshal ⟨"login", "abcdefghijklmnopqrstuvwx", "ABCDEFGHIJKLMNOPQRSTUVWX", 1700000000, none⟩
        = .ok data ∧ Unmarshal data = .ok back ∧
      back.Name = "login" ∧ back.UUID = "abcdefghijklmnopqrstuvwx" ∧
      back.UserUUID = "ABCDEFGHIJKLMNOPQRSTUVWX" ∧ back.Timestamp = 1700000000 ∧
      back.Metadata = none :=
  marshal_roundtrip
    ⟨"login", "abcdefghijklmnopqrstuvwx", "ABCDEFGHIJKLMNOPQRSTUVWX", 1700000000, none⟩
    (by decide) ⟨by decide, by decide⟩ ⟨by decide, by decide⟩ (by decide) rfl

/-- C6 (as stated, refuted): with every draw of the random source equal to 2
and the clock at the epoch, the iteration publishes an event whose text ends
in `"Metadata":null`: the member `Metadata` reads back as `null`, not as an
empty object. -/
theorem metadata_not_empty_object :
    (startWorkerIteration ⟨0⟩ (fun _ => 2)).toOption.map (fun x => x.1.data)
      = some ("\x7b\"Name\":\"stop_song\",\"UUID\":\"cccccccccccccccccccccccc\","
          ++ "\"UserUUID\":\"cccccccccccccccccccccccc\",\"Timestamp\":0,\"Metadata\":null\x7d") ∧
    parseJSON ("\x7b\"Name\":\"stop_song\",\"UUID\":\"cccccccccccccccccccccccc\","
          ++ "\"UserUUID\":\"cccccccccccccccccccccccc\",\"Timestamp\":0,\"Metadata\":null\x7d")
      ≠ .ok (.map [("Name", .str "stop_song"), ("UUID", .str "cccccccccccccccccccccccc"),
          ("UserUUID", .str "cccccccccccccccccccccccc"), ("Timestamp", .int 0),
          ("Metadata", .map [])]) := by
  constructor
  · decide
  · have h := parseJSON_marshalText
      ⟨"stop_song", "cccccccccccccccccccccccc", "cccccccccccccccccccccccc", 0, none⟩
      (by unfold Plain; decide) (by unfold Plain; decide) (by unfold Plain; decide)
    have e : String.mk (marshalText
        ⟨"stop_song", "cccccccccccccccccccccccc", "cccccccccccccccccccccccc", 0, none⟩)
        = "\x7b\"Name\":\"stop_song\",\"UUID\":\"cccccccccccccccccccccccc\","
          ++ "\"UserUUID\":\"cccccccccccccccccccccccc\",\"Timestamp\":0,\"Metadata\":null\x7d" := by
      decide
    rw [e] at h
    rw [h]
    simp [eventObject]

/-- C6 (amended): on the non-faulty path the published payload reads back as
an object of exactly five members, in this order: `Name`, `UUID` and
`UserUUID` with the strings of the event, `Timestamp` with its integer, and
`Metadata` with `null` (the map is nil, it is never allocated). -/
theorem payload_five_members (t : Time) (r : Rng) :
    ∃ it r1, startWorkerIteration t r = .ok (it, r1) ∧
      ((it.event = none ∧ it.data = badData) ∨
        ∃ ev, it.event = some ev ∧ ev.Metadata = none ∧
          parseJSON it.data = .ok (.map [("Name", .str ev.Name), ("UUID", .str ev.UUID),
            ("UserUUID", .str ev.UserUUID), ("Timestamp", .int ev.Timestamp),
            ("Metadata", .nil)])) := by
  rcases startWorkerIteration_spec t r with ⟨_, hrun⟩ | ⟨_, ev, r2, hev, _, hrun⟩
  · exact ⟨_, _, hrun, Or.inl ⟨rfl, rfl⟩⟩
  · obtain ⟨ev1, r3, hev1, hname, _, hu, _, hv, _, hmeta⟩ :=
      buildEvent_spec t (fun i => r (i + 1))
    rw [hev] at hev1
    cases hev1
    exact ⟨_, _, hrun, Or.inr ⟨ev, rfl, hmeta,
      parseJSON_marshalText ev (eventNames_plain _ hname)
        (fun c hc => letterRunes_plain c (hu c hc))
        (fun c hc => letterRunes_plain c (hv c hc))⟩⟩

end Faker
